import Mathlib

/-!
Shallow embedding of `whipper/command/basecommand.py` (`BaseCommand.__init__`
and its helpers) for verifying the command-tree construction, default-merging
and delegation protocol.

External collaborators referenced by the source but outside it are modelled as
explicit data:
  * `whipper.common.config.Config` (`get` / `getboolean`) as a pair of lookup
    functions returning `Option` values (`None` in Python);
  * `whipper.common.drive.getAllDevicePaths` as a list of device paths;
  * `os.path.realpath` / `os.path.exists` as functions on strings;
  * the `argparse` parsing primitive as an executable model of the behaviour
    the source relies on: defaults seeded into a (possibly pre-populated)
    namespace, exact option-string matching, `store` / `store_true` /
    `store_false` actions, a catch-all `REMAINDER` positional capturing every
    token from the first plain argument onward, and error exits.  Abbreviated
    option matching and the `--opt=value` form are not modelled; no claim
    quantifies over them.

Termination outcomes (`raise SystemExit()`, `raise SystemExit(1)`,
`raise IOError`, argparse errors) are modelled as values of `Failure`.
-/

set_option autoImplicit false

namespace Whipper

/-- Runtime values stored in the argparse option namespace.  `null` is
Python's `None`, `strList` is the list value of the `REMAINDER` positional. -/
inductive Value where
  | null
  | str (s : String)
  | bool (b : Bool)
  | strList (l : List String)
deriving Repr, DecidableEq

/-- Model of `argparse.Namespace`: an association list from attribute name
(`dest`) to value.  An absent key models a missing attribute
(`hasattr` false); a key mapped to `Value.null` models an attribute set to
`None`. -/
abbrev OptionNamespace : Type := List (String × Value)

/-- Attribute read: `getattr(ns, key, <absent>)`. -/
def OptionNamespace.get : OptionNamespace → String → Option Value
  | [], _ => none
  | (k, v) :: rest, key => if k = key then some v else OptionNamespace.get rest key

/-- Attribute write: `setattr(ns, key, v)`. -/
def OptionNamespace.set : OptionNamespace → String → Value → OptionNamespace
  | [], key, v => [(key, v)]
  | (k, w) :: rest, key, v =>
    if k = key then (k, v) :: rest else (k, w) :: OptionNamespace.set rest key v

/-- The argparse action classes the source dispatches on:
`_StoreAction`, `_StoreTrueAction`, `_StoreFalseAction`, `_HelpAction`. -/
inductive ActionKind where
  | store
  | storeTrue
  | storeFalse
  | help
deriving Repr, DecidableEq

/-- One argparse action: its option strings (empty for a positional), its
`dest`, its default (`none` models `argparse.SUPPRESS`, `some .null` models a
default of Python `None`), and its class. -/
structure Action where
  optionStrings : List String
  dest : String
  default : Option Value
  kind : ActionKind
deriving Repr, DecidableEq

/-- The `-h` / `--help` action argparse adds when `add_help` is true. -/
def helpAction : Action :=
  { optionStrings := ["-h", "--help"], dest := "help", default := none, kind := .help }

/-- The catch-all positional added for commands with subcommands:
`parser.add_argument('remainder', nargs=argparse.REMAINDER, ...)`.
Its argparse class is `_StoreAction` and its built-in default is `None`. -/
def remainderAction : Action :=
  { optionStrings := [], dest := "remainder", default := some .null, kind := .store }

/-- The `-d` / `--device` action added when `device_option` is set, with the
first enumerated drive as default:
`parser.add_argument('-d', '--device', action="store", dest="device",
default=drives[0], ...)`. -/
def deviceAction (d : String) : Action :=
  { optionStrings := ["-d", "--device"], dest := "device",
    default := some (.str d), kind := .store }

/-- The configuration store collaborator (`whipper.common.config.Config`):
string lookup `get(section, option)` and boolean lookup
`getboolean(section, option)`, each returning `None` for an absent entry. -/
structure Config where
  get : String → String → Option String
  getboolean : String → String → Option Bool

/-- The ambient collaborators of `BaseCommand.__init__`: the configuration
store, `drive.getAllDevicePaths()`, `os.path.realpath` and `os.path.exists`. -/
structure World where
  config : Config
  drives : List String
  realpath : String → String
  pathExists : String → Bool

/-- Line 64: `config_section = prog_name.replace(' ', '.')`.  For the
single-character pattern `' '`, Python's `str.replace` is exactly the
per-character substitution of `'.'` for `' '`, written here over the string's
character list so that it evaluates by kernel reduction. -/
def configSection (progName : String) : String :=
  ⟨progName.data.map fun c => if c = ' ' then '.' else c⟩

/-- Lines 66-75 for a single action: the dispatch of the config-defaults loop
body.  A `_StoreAction` is looked up with `Config().get`, a
`_StoreTrueAction` / `_StoreFalseAction` with `Config().getboolean`; a
non-`None` result replaces the action's default (the effect of
`parser.set_defaults`), `None` leaves it unchanged, and any other action class
(such as `_HelpAction`) is skipped. -/
def applyConfigOne (cfg : Config) (sec : String) (a : Action) : Action :=
  match a.kind with
  | .store =>
    match cfg.get sec a.dest with
    | some v => { a with default := some (.str v) }
    | none => a
  | .storeTrue =>
    match cfg.getboolean sec a.dest with
    | some b => { a with default := some (.bool b) }
    | none => a
  | .storeFalse =>
    match cfg.getboolean sec a.dest with
    | some b => { a with default := some (.bool b) }
    | none => a
  | .help => a

/-- Lines 65-75: the config-defaults pass over the declared actions followed
by `self.parser.set_defaults(**defaults)`. -/
def applyConfigDefaults (cfg : Config) (sec : String) (actions : List Action) :
    List Action :=
  actions.map (applyConfigOne cfg sec)

/-- Option-string matching: the first action owning the given token among its
option strings (argparse rejects duplicate option strings at registration, so
first match is the match). -/
def findAction : List Action → String → Option Action
  | [], _ => none
  | a :: rest, tok => if tok ∈ a.optionStrings then some a else findAction rest tok

/-- A token that argparse classifies as an optional: starts with the prefix
character `-` and is not the bare `-` (written over the character list so
that it evaluates by kernel reduction). -/
def isOptionLike (t : String) : Bool :=
  match t.data with
  | [] => false
  | c :: rest => c = '-' && !rest.isEmpty

/-- Seeding of one action's default at the start of `parse_args`: argparse
sets `namespace.dest = default` only when the namespace does not already have
the attribute and the default is not `SUPPRESS`. -/
def seedOne (a : Action) (ns : OptionNamespace) : OptionNamespace :=
  match a.default with
  | some v => if (ns.get a.dest).isNone then ns.set a.dest v else ns
  | none => ns

/-- Seeding of all defaults, in declaration order. -/
def seedDefaults : List Action → OptionNamespace → OptionNamespace
  | [], ns => ns
  | a :: rest, ns => seedDefaults rest (seedOne a ns)

/-- The ways `BaseCommand.__init__` terminates without returning a fully
constructed command. -/
inductive Failure where
  /-- Line 88: `raise IOError('No CD-DA drives found!')`. -/
  | noDrives
  /-- Line 103: `raise IOError('CD-DA device %s not found!')`. -/
  | deviceNotFound (path : String)
  /-- An argparse usage error (unrecognized argument, missing option value). -/
  | parseError
  /-- Line 111: `self.parser.print_help(); raise SystemExit()` — also argparse's
  own help exit on `-h`. -/
  | helpExit
  /-- Line 115: `raise SystemExit(1)` after the critical log. -/
  | unknownSubcommand (tok : String)
  /-- An uncaught type error (unreachable in the modelled flows). -/
  | internalError
deriving Repr, DecidableEq

/-- Process exit status of each termination: `SystemExit()` exits 0,
`SystemExit(1)` exits 1, argparse usage errors exit 2, an uncaught `IOError`
terminates the interpreter with status 1. -/
def Failure.exitCode : Failure → Nat
  | .noDrives => 1
  | .deviceNotFound _ => 1
  | .parseError => 2
  | .helpExit => 0
  | .unknownSubcommand _ => 1
  | .internalError => 1

/-- The argv scan of `parse_args` after defaults are seeded.  Recognized
option tokens consume their action (and, for `store`, the following value
token); `-h` triggers the help exit; an unrecognized option-like token is a
usage error; the first plain token starts the `REMAINDER` capture when the
catch-all positional is declared and is a usage error otherwise.  When the
scan ends with no plain token, the `REMAINDER` positional still matches the
empty list. -/
def scanArgs (actions : List Action) (hasRemainder : Bool) :
    List String → OptionNamespace → Except Failure (OptionNamespace × List String)
  | [], ns =>
    .ok (if hasRemainder then ns.set "remainder" (.strList []) else ns, [])
  | tok :: rest, ns =>
    match findAction actions tok with
    | some a =>
      match a.kind with
      | .store =>
        match rest with
        | [] => .error .parseError
        | v :: rest2 => scanArgs actions hasRemainder rest2 (ns.set a.dest (.str v))
      | .storeTrue => scanArgs actions hasRemainder rest (ns.set a.dest (.bool true))
      | .storeFalse => scanArgs actions hasRemainder rest (ns.set a.dest (.bool false))
      | .help => .error .helpExit
    | none =>
      if isOptionLike tok then .error .parseError
      else if hasRemainder then
        .ok (ns.set "remainder" (.strList (tok :: rest)), tok :: rest)
      else .error .parseError

/-- Line 96: `self.parser.parse_args(argv, namespace=opts)` — seed the
declared defaults into the incoming namespace, then scan argv. -/
def parseArgs (actions : List Action) (hasRemainder : Bool) (argv : List String)
    (ns : OptionNamespace) : Except Failure (OptionNamespace × List String) :=
  scanArgs actions hasRemainder argv (seedDefaults actions ns)

/-- Static per-node declaration: the flags added by `add_arguments` and the
two class attributes `device_option` and `no_add_help`. -/
structure CmdSpec where
  flags : List Action
  deviceOption : Bool
  noAddHelp : Bool
deriving Repr, DecidableEq

/-- A command tree: a node has a `subcommands` table (`hasattr` true), a leaf
has none. -/
inductive Cmd where
  | leaf : CmdSpec → Cmd
  | node : CmdSpec → List (String × Cmd) → Cmd

/-- The static declaration of a tree's root node. -/
def Cmd.spec : Cmd → CmdSpec
  | .leaf s => s
  | .node s _ => s

/-- Actions present when the config-defaults loop of lines 65-75 runs: the
automatic help action (unless `no_add_help`) followed by the flags added by
`add_arguments`.  The `remainder` and `device` actions are not yet added. -/
def baseActions (spec : CmdSpec) : List Action :=
  (if spec.noAddHelp then [] else [helpAction]) ++ spec.flags

/-- The parser's full action list at the `parse_args` call of line 96,
assembled in source order: config-resolved declared actions, then the
catch-all `remainder` positional (when the node has subcommands), then the
`-d`/`--device` action with the first enumerated drive as default (when
`device_option` is set). -/
def buildSchema (cfg : Config) (spec : CmdSpec) (hasSubs : Bool)
    (progName : String) (firstDrive : Option String) : List Action :=
  let resolved := applyConfigDefaults cfg (configSection progName) (baseActions spec)
  let withRem := if hasSubs then resolved ++ [remainderAction] else resolved
  match firstDrive with
  | some d => withRem ++ [deviceAction d]
  | none => withRem

/-- Lines 98-104: replace the parsed device value with
`os.path.realpath(self.options.device)` and raise `IOError` when the
resolved path does not exist. -/
def validateDevice (w : World) (ns : OptionNamespace) : Except Failure OptionNamespace :=
  match ns.get "device" with
  | some (.str s) =>
    let rp := w.realpath s
    if w.pathExists rp then .ok (ns.set "device" (.str rp))
    else .error (.deviceNotFound rp)
  | _ => .error .internalError

/-- Outcome of one node's parse phase: the post-parse (and, when applicable,
post-device-validation) namespace, the captured remainder token list, and the
schema that was parsed against. -/
structure LevelOutcome where
  ns : OptionNamespace
  remainder : List String
  schema : List Action
deriving Repr, DecidableEq

/-- Parse against an assembled schema and run the device validation of lines
98-104 when `device_option` is set. -/
def parseAndValidate (w : World) (schema : List Action) (dev hasSubs : Bool)
    (argv : List String) (ns : OptionNamespace) : Except Failure LevelOutcome :=
  match parseArgs schema hasSubs argv ns with
  | .error e => .error e
  | .ok (ns1, rem) =>
    if dev then
      match validateDevice w ns1 with
      | .error e => .error e
      | .ok ns2 => .ok ⟨ns2, rem, schema⟩
    else .ok ⟨ns1, rem, schema⟩

/-- Lines 59-104 of `BaseCommand.__init__` for one node: build the schema
(checking `drive.getAllDevicePaths()` first when `device_option` is set —
line 83's check precedes the `parse_args` call), parse, and validate the
device.  `handle_arguments` is a no-op hook in the base class. -/
def constructBase (w : World) (spec : CmdSpec) (hasSubs : Bool)
    (progName : String) (argv : List String) (ns : OptionNamespace) :
    Except Failure LevelOutcome :=
  if spec.deviceOption then
    match w.drives with
    | [] => .error .noDrives
    | d :: _ =>
      parseAndValidate w (buildSchema w.config spec hasSubs progName (some d))
        true hasSubs argv ns
  else
    parseAndValidate w (buildSchema w.config spec hasSubs progName none)
      false hasSubs argv ns

/-- Lines 113-120: `self.subcommands[self.options.remainder[0]]`, first
match in the table. -/
def lookupSub : List (String × Cmd) → String → Option Cmd
  | [], _ => none
  | (k, c) :: rest, tok => if k = tok then some c else lookupSub rest tok

/-- The runtime result of a fully constructed command chain: the final shared
namespace and, per level from the root down, the program name and the
namespace as that level observed it right after its own parse phase. -/
structure ConstructResult where
  options : OptionNamespace
  levels : List (String × OptionNamespace)
deriving Repr, DecidableEq

mutual
/-- The whole of `BaseCommand.__init__`: one node's parse phase followed by
the dispatch of lines 108-120.  An empty remainder prints help and raises
`SystemExit()`; an unknown first remainder token logs and raises
`SystemExit(1)`; otherwise the named child is constructed recursively with
the tail of the remainder, the extended program name, and the same
namespace. -/
def construct (w : World) : Cmd → List String → String → OptionNamespace →
    Except Failure ConstructResult
  | .leaf spec, argv, progName, ns =>
    match constructBase w spec false progName argv ns with
    | .error e => .error e
    | .ok lo => .ok ⟨lo.ns, [(progName, lo.ns)]⟩
  | .node spec subs, argv, progName, ns =>
    match constructBase w spec true progName argv ns with
    | .error e => .error e
    | .ok lo =>
      match lo.remainder with
      | [] => .error .helpExit
      | tok :: rest =>
        match dispatch w subs tok rest (progName ++ " " ++ tok) lo.ns with
        | none => .error (.unknownSubcommand tok)
        | some (.error e) => .error e
        | some (.ok r) => .ok ⟨r.options, (progName, lo.ns) :: r.levels⟩

/-- Lines 116-120, `self.subcommands[self.options.remainder[0]](...)`: the
table lookup fused with the child construction call it feeds
(`dispatch w subs tok … = (lookupSub subs tok).map (construct w · …)`,
proved below as `dispatch_eq_lookupSub`). -/
def dispatch (w : World) : List (String × Cmd) → String → List String → String →
    OptionNamespace → Option (Except Failure ConstructResult)
  | [], _, _, _, _ => none
  | (k, c) :: restSubs, tok, rest, childProg, ns =>
    if k = tok then some (construct w c rest childProg ns)
    else dispatch w restSubs tok rest childProg ns
end

/-! Lemmas about the namespace, default seeding, option matching and the
argv scan. -/

theorem OptionNamespace.get_set_self (ns : OptionNamespace) (k : String) (v : Value) :
    (ns.set k v).get k = some v := by
  induction ns with
  | nil => simp [OptionNamespace.set, OptionNamespace.get]
  | cons p rest ih =>
    obtain ⟨k', w⟩ := p
    by_cases h : k' = k <;>
      simp [OptionNamespace.set, OptionNamespace.get, h, ih]

theorem OptionNamespace.get_set_ne (ns : OptionNamespace) {k k' : String} (v : Value)
    (h : k' ≠ k) : (ns.set k v).get k' = ns.get k' := by
  induction ns with
  | nil =>
    simp [OptionNamespace.set, OptionNamespace.get, Ne.symm h]
  | cons p rest ih =>
    obtain ⟨k'', w⟩ := p
    by_cases h2 : k'' = k <;>
      by_cases h3 : k'' = k' <;>
      simp_all [OptionNamespace.set, OptionNamespace.get]

theorem seedOne_get_ne (a : Action) (ns : OptionNamespace) {k : String}
    (h : k ≠ a.dest) : (seedOne a ns).get k = ns.get k := by
  rcases hd : a.default with _ | v
  · simp [seedOne, hd]
  · simp only [seedOne, hd]
    split
    · exact OptionNamespace.get_set_ne ns v h
    · rfl

theorem seedOne_preserve_some (a : Action) (ns : OptionNamespace) {k : String} {v : Value}
    (h : ns.get k = some v) : (seedOne a ns).get k = some v := by
  rcases hd : a.default with _ | d
  · simpa [seedOne, hd] using h
  · simp only [seedOne, hd]
    by_cases hk : k = a.dest
    · subst hk
      simp [h]
    · split
      · rw [OptionNamespace.get_set_ne ns d hk]
        exact h
      · exact h

theorem seedDefaults_preserve_some {l : List Action} {ns : OptionNamespace}
    {k : String} {v : Value} (h : ns.get k = some v) :
    (seedDefaults l ns).get k = some v := by
  induction l generalizing ns with
  | nil => exact h
  | cons a rest ih => exact ih (seedOne_preserve_some a ns h)

theorem seedDefaults_preserve_ne {l : List Action} {k : String}
    (h : ∀ a ∈ l, a.dest ≠ k) (ns : OptionNamespace) :
    (seedDefaults l ns).get k = ns.get k := by
  induction l generalizing ns with
  | nil => rfl
  | cons a rest ih =>
    rw [seedDefaults, ih fun b hb => h b (List.mem_cons_of_mem a hb),
      seedOne_get_ne a ns fun e => h a (List.mem_cons_self a rest) e.symm]

theorem seedDefaults_get_unique {l : List Action} {a : Action} {k : String} {v : Value}
    (ha : a ∈ l) (hd : a.dest = k) (hdef : a.default = some v)
    (huniq : ∀ b ∈ l, b.dest = k → b = a)
    {ns : OptionNamespace} (hns : ns.get k = none) :
    (seedDefaults l ns).get k = some v := by
  induction l generalizing ns with
  | nil => cases ha
  | cons b rest ih =>
    rw [seedDefaults]
    by_cases hbk : b.dest = k
    · have hba : b = a := huniq b (List.mem_cons_self b rest) hbk
      have hset : (seedOne b ns).get k = some v := by
        rw [hba]
        simp only [seedOne, hdef, hd, hns, Option.isNone_none, if_true]
        exact OptionNamespace.get_set_self ns k v
      exact seedDefaults_preserve_some hset
    · have hrest : a ∈ rest := by
        cases List.mem_cons.mp ha with
        | inl e => exact absurd (e ▸ hd) hbk
        | inr m => exact m
      have hkeep : (seedOne b ns).get k = none := by
        rw [seedOne_get_ne b ns fun e => hbk e.symm]
        exact hns
      exact ih hrest (fun c hc hck => huniq c (List.mem_cons_of_mem b hc) hck) hkeep

theorem seedDefaults_get_none {l : List Action} {k : String}
    (hnone : ∀ b ∈ l, b.dest = k → b.default = none)
    {ns : OptionNamespace} (hns : ns.get k = none) :
    (seedDefaults l ns).get k = none := by
  induction l generalizing ns with
  | nil => exact hns
  | cons b rest ih =>
    rw [seedDefaults]
    have hkeep : (seedOne b ns).get k = none := by
      by_cases hbk : b.dest = k
      · simp only [seedOne, hnone b (List.mem_cons_self b rest) hbk]
        exact hns
      · rw [seedOne_get_ne b ns fun e => hbk e.symm]
        exact hns
    exact ih (fun c hc hck => hnone c (List.mem_cons_of_mem b hc) hck) hkeep

theorem findAction_mem {l : List Action} {t : String} {a : Action}
    (h : findAction l t = some a) : a ∈ l := by
  induction l with
  | nil => cases h
  | cons b rest ih =>
    rw [findAction] at h
    split at h
    · cases h
      exact List.mem_cons_self _ _
    · exact List.mem_cons_of_mem b (ih h)

theorem findAction_optionStrings {l : List Action} {t : String} {a : Action}
    (h : findAction l t = some a) : t ∈ a.optionStrings := by
  induction l with
  | nil => cases h
  | cons b rest ih =>
    rw [findAction] at h
    split at h
    · cases h
      assumption
    · exact ih h

theorem applyConfigOne_optionStrings (cfg : Config) (sec : String) (a : Action) :
    (applyConfigOne cfg sec a).optionStrings = a.optionStrings := by
  obtain ⟨os, d, df, kd⟩ := a
  cases kd <;> simp only [applyConfigOne] <;> (try split) <;> rfl

theorem applyConfigOne_dest (cfg : Config) (sec : String) (a : Action) :
    (applyConfigOne cfg sec a).dest = a.dest := by
  obtain ⟨os, d, df, kd⟩ := a
  cases kd <;> simp only [applyConfigOne] <;> (try split) <;> rfl

theorem applyConfigOne_kind (cfg : Config) (sec : String) (a : Action) :
    (applyConfigOne cfg sec a).kind = a.kind := by
  obtain ⟨os, d, df, kd⟩ := a
  cases kd <;> simp only [applyConfigOne] <;> (try split) <;> rfl

theorem findAction_applyConfigDefaults (cfg : Config) (sec : String)
    (l : List Action) (t : String) :
    findAction (applyConfigDefaults cfg sec l) t =
      (findAction l t).map (applyConfigOne cfg sec) := by
  induction l with
  | nil => rfl
  | cons a rest ih =>
    simp only [applyConfigDefaults, List.map_cons, findAction,
      applyConfigOne_optionStrings]
    split
    · rfl
    · exact ih

theorem findAction_append_left {l1 : List Action} {t : String} {a : Action}
    (l2 : List Action) (h : findAction l1 t = some a) :
    findAction (l1 ++ l2) t = some a := by
  induction l1 with
  | nil => cases h
  | cons b rest ih =>
    rw [findAction] at h
    rw [List.cons_append, findAction]
    split at h
    · cases h
      simp_all
    · rw [if_neg (by assumption)]
      exact ih h

theorem scanArgs_preserve {actions : List Action} {hasRem : Bool} {argv : List String}
    {ns ns1 : OptionNamespace} {rem : List String} {k : String}
    (havoid : ∀ t ∈ argv, ∀ a, findAction actions t = some a →
      a.kind = .help ∨ a.dest ≠ k)
    (hk : k ≠ "remainder")
    (h : scanArgs actions hasRem argv ns = .ok (ns1, rem)) :
    ns1.get k = ns.get k := by
  induction argv, ns using scanArgs.induct actions hasRem generalizing ns1 rem with
  | case1 ns =>
    simp only [scanArgs, Except.ok.injEq, Prod.mk.injEq] at h
    obtain ⟨h1, h2⟩ := h
    rw [← h1]
    cases hasRem with
    | false => rfl
    | true => exact OptionNamespace.get_set_ne ns _ hk
  | case2 tok ns a hf hkind =>
    simp [scanArgs, hf, hkind] at h
  | case3 tok ns a hf hkind v rest2 ih =>
    simp only [scanArgs, hf, hkind] at h
    have hdk : a.dest ≠ k := by
      cases havoid tok (by simp) a hf with
      | inl e => rw [hkind] at e; cases e
      | inr e => exact e
    rw [ih (fun t ht b hb => havoid t (by simp [ht]) b hb) h,
      OptionNamespace.get_set_ne ns _ fun e => hdk e.symm]
  | case4 tok rest ns a hf hkind ih =>
    simp only [scanArgs, hf, hkind] at h
    have hdk : a.dest ≠ k := by
      cases havoid tok (by simp) a hf with
      | inl e => rw [hkind] at e; cases e
      | inr e => exact e
    rw [ih (fun t ht b hb => havoid t (by simp [ht]) b hb) h,
      OptionNamespace.get_set_ne ns _ fun e => hdk e.symm]
  | case5 tok rest ns a hf hkind ih =>
    simp only [scanArgs, hf, hkind] at h
    have hdk : a.dest ≠ k := by
      cases havoid tok (by simp) a hf with
      | inl e => rw [hkind] at e; cases e
      | inr e => exact e
    rw [ih (fun t ht b hb => havoid t (by simp [ht]) b hb) h,
      OptionNamespace.get_set_ne ns _ fun e => hdk e.symm]
  | case6 tok rest ns a hf hkind =>
    simp [scanArgs, hf, hkind] at h
  | case7 tok rest ns hf hopt =>
    simp [scanArgs, hf, hopt] at h
  | case8 tok rest ns hf hopt hrem =>
    simp only [scanArgs, hf, hopt, hrem, Bool.false_eq_true, if_false, if_true,
      Except.ok.injEq, Prod.mk.injEq] at h
    obtain ⟨h1, h2⟩ := h
    rw [← h1]
    exact OptionNamespace.get_set_ne ns _ hk
  | case9 tok rest ns hf hopt hrem =>
    simp [scanArgs, hf, hopt, hrem] at h

theorem scanArgs_rem_length {actions : List Action} {hasRem : Bool} {argv : List String}
    {ns ns1 : OptionNamespace} {rem : List String}
    (h : scanArgs actions hasRem argv ns = .ok (ns1, rem)) :
    rem.length ≤ argv.length := by
  induction argv, ns using scanArgs.induct actions hasRem generalizing ns1 rem with
  | case1 ns =>
    simp only [scanArgs, Except.ok.injEq, Prod.mk.injEq] at h
    obtain ⟨h1, h2⟩ := h
    rw [← h2]
  | case2 tok ns a hf hkind =>
    simp [scanArgs, hf, hkind] at h
  | case3 tok ns a hf hkind v rest2 ih =>
    simp only [scanArgs, hf, hkind] at h
    have := ih h
    simp only [List.length_cons]
    omega
  | case4 tok rest ns a hf hkind ih =>
    simp only [scanArgs, hf, hkind] at h
    have := ih h
    simp only [List.length_cons]
    omega
  | case5 tok rest ns a hf hkind ih =>
    simp only [scanArgs, hf, hkind] at h
    have := ih h
    simp only [List.length_cons]
    omega
  | case6 tok rest ns a hf hkind =>
    simp [scanArgs, hf, hkind] at h
  | case7 tok rest ns hf hopt =>
    simp [scanArgs, hf, hopt] at h
  | case8 tok rest ns hf hopt hrem =>
    simp only [scanArgs, hf, hopt, hrem, Bool.false_eq_true, if_false, if_true,
      Except.ok.injEq, Prod.mk.injEq] at h
    obtain ⟨h1, h2⟩ := h
    rw [← h2]
  | case9 tok rest ns hf hopt hrem =>
    simp [scanArgs, hf, hopt, hrem] at h

theorem validateDevice_preserve {w : World} {ns ns2 : OptionNamespace} {k : String}
    (hk : k ≠ "device") (h : validateDevice w ns = .ok ns2) :
    ns2.get k = ns.get k := by
  unfold validateDevice at h
  rcases hd : ns.get "device" with _ | v
  · rw [hd] at h
    cases h
  · rw [hd] at h
    cases v with
    | str s =>
      by_cases he : w.pathExists (w.realpath s) = true
      · simp only [he, if_true] at h
        cases h
        exact OptionNamespace.get_set_ne ns _ hk
      · simp only [he, if_false] at h
        cases h
    | null => cases h
    | bool b => cases h
    | strList l => cases h

theorem buildSchema_dest_ne {cfg : Config} {spec : CmdSpec} {hasSubs : Bool}
    {prog : String} {fd : Option String} {k : String}
    (hf : ∀ a ∈ spec.flags, a.dest ≠ k) (hh : k ≠ "help")
    (hr : k ≠ "remainder") (hd : k ≠ "device") :
    ∀ a ∈ buildSchema cfg spec hasSubs prog fd, a.dest ≠ k := by
  intro a ha
  have hbase : ∀ b ∈ applyConfigDefaults cfg (configSection prog) (baseActions spec),
      b.dest ≠ k := by
    intro b hb
    obtain ⟨c, hc, hcb⟩ := List.mem_map.mp hb
    rw [← hcb, applyConfigOne_dest]
    rcases List.mem_append.mp hc with hcl | hcr
    · have : c = helpAction := by
        cases hah : spec.noAddHelp <;> rw [hah] at hcl <;> simpa using hcl
      rw [this]
      exact fun e => hh e.symm
    · exact hf c hcr
  unfold buildSchema at ha
  rcases fd with _ | d
  · simp only at ha
    split at ha
    · rcases List.mem_append.mp ha with h1 | h2
      · exact hbase a h1
      · have : a = remainderAction := by simpa using h2
        rw [this]
        exact fun e => hr e.symm
    · exact hbase a ha
  · simp only at ha
    rcases List.mem_append.mp ha with h1 | h2
    · split at h1
      · rcases List.mem_append.mp h1 with h3 | h4
        · exact hbase a h3
        · have : a = remainderAction := by simpa using h4
          rw [this]
          exact fun e => hr e.symm
      · exact hbase a h1
    · have : a = deviceAction d := by simpa using h2
      rw [this]
      exact fun e => hd e.symm

theorem parseAndValidate_preserve {w : World} {schema : List Action}
    {dev hasSubs : Bool} {argv : List String} {ns : OptionNamespace}
    {lo : LevelOutcome} {k : String}
    (hdests : ∀ a ∈ schema, a.dest ≠ k) (hr : k ≠ "remainder") (hd : k ≠ "device")
    (h : parseAndValidate w schema dev hasSubs argv ns = .ok lo) :
    lo.ns.get k = ns.get k := by
  unfold parseAndValidate at h
  rcases hp : parseArgs schema hasSubs argv ns with e | ⟨ns1, rem⟩
  · rw [hp] at h
    cases h
  · rw [hp] at h
    have hns1 : ns1.get k = ns.get k := by
      unfold parseArgs at hp
      rw [scanArgs_preserve (fun t _ a hfa => Or.inr (hdests a (findAction_mem hfa)))
        hr hp]
      exact seedDefaults_preserve_ne hdests ns
    cases dev with
    | false =>
      simp only [Bool.false_eq_true, if_false] at h
      cases h
      exact hns1
    | true =>
      simp only [if_true] at h
      rcases hv : validateDevice w ns1 with e | ns2
      · rw [hv] at h
        cases h
      · rw [hv] at h
        cases h
        rw [validateDevice_preserve hd hv]
        exact hns1

/-- Preservation across one node's whole parse phase: a namespace entry whose
key is not a `dest` of the node's schema survives `constructBase`
unchanged. -/
theorem constructBase_preserve {w : World} {spec : CmdSpec} {hasSubs : Bool}
    {prog : String} {argv : List String} {ns : OptionNamespace}
    {lo : LevelOutcome} {k : String}
    (hf : ∀ a ∈ spec.flags, a.dest ≠ k) (hh : k ≠ "help")
    (hr : k ≠ "remainder") (hd : k ≠ "device")
    (h : constructBase w spec hasSubs prog argv ns = .ok lo) :
    lo.ns.get k = ns.get k := by
  unfold constructBase at h
  split at h
  · rcases hdr : w.drives with _ | ⟨d, ds⟩
    · rw [hdr] at h
      cases h
    · rw [hdr] at h
      exact parseAndValidate_preserve (buildSchema_dest_ne hf hh hr hd) hr hd h
  · exact parseAndValidate_preserve (buildSchema_dest_ne hf hh hr hd) hr hd h

theorem dispatch_eq_lookupSub (w : World) (subs : List (String × Cmd)) (tok : String)
    (rest : List String) (childProg : String) (ns : OptionNamespace) :
    dispatch w subs tok rest childProg ns =
      (lookupSub subs tok).map fun c => construct w c rest childProg ns := by
  induction subs with
  | nil => rfl
  | cons p restSubs ih =>
    obtain ⟨k, c⟩ := p
    by_cases h : k = tok <;> simp [dispatch, lookupSub, h, ih]

theorem construct_leaf_eq (w : World) (s : CmdSpec) (argv : List String)
    (prog : String) (ns : OptionNamespace) :
    construct w (.leaf s) argv prog ns =
      match constructBase w s false prog argv ns with
      | .error e => .error e
      | .ok lo => .ok ⟨lo.ns, [(prog, lo.ns)]⟩ := rfl

theorem construct_node_help {w : World} {spec : CmdSpec} {subs : List (String × Cmd)}
    {argv : List String} {prog : String} {ns : OptionNamespace} {lo : LevelOutcome}
    (hok : constructBase w spec true prog argv ns = .ok lo)
    (hrem : lo.remainder = []) :
    construct w (.node spec subs) argv prog ns = .error .helpExit := by
  simp only [construct, hok, hrem]

theorem construct_node_unknown {w : World} {spec : CmdSpec} {subs : List (String × Cmd)}
    {argv : List String} {prog : String} {ns : OptionNamespace} {lo : LevelOutcome}
    {tok : String} {rest : List String}
    (hok : constructBase w spec true prog argv ns = .ok lo)
    (hrem : lo.remainder = tok :: rest)
    (hlk : lookupSub subs tok = none) :
    construct w (.node spec subs) argv prog ns = .error (.unknownSubcommand tok) := by
  simp only [construct, hok, hrem, dispatch_eq_lookupSub, hlk, Option.map_none']

theorem construct_node_delegate {w : World} {spec : CmdSpec} {subs : List (String × Cmd)}
    {argv : List String} {prog : String} {ns : OptionNamespace} {lo : LevelOutcome}
    {tok : String} {rest : List String} {child : Cmd}
    (hok : constructBase w spec true prog argv ns = .ok lo)
    (hrem : lo.remainder = tok :: rest)
    (hlk : lookupSub subs tok = some child) :
    construct w (.node spec subs) argv prog ns =
      match construct w child rest (prog ++ " " ++ tok) lo.ns with
      | .error e => .error e
      | .ok r => .ok ⟨r.options, (prog, lo.ns) :: r.levels⟩ := by
  simp only [construct, hok, hrem, dispatch_eq_lookupSub, hlk, Option.map_some']
  rcases construct w child rest (prog ++ " " ++ tok) lo.ns with e | r <;> rfl

/-- Splitting off the trailing device action of an assembled schema. -/
theorem buildSchema_some (cfg : Config) (spec : CmdSpec) (hasSubs : Bool)
    (prog : String) (d : String) :
    buildSchema cfg spec hasSubs prog (some d) =
      buildSchema cfg spec hasSubs prog none ++ [deviceAction d] := rfl

theorem buildSchema_none_dest_ne {cfg : Config} {spec : CmdSpec} {hasSubs : Bool}
    {prog : String} {k : String}
    (hf : ∀ a ∈ spec.flags, a.dest ≠ k) (hh : k ≠ "help") (hr : k ≠ "remainder") :
    ∀ a ∈ buildSchema cfg spec hasSubs prog none, a.dest ≠ k := by
  intro a ha
  have hbase : ∀ b ∈ applyConfigDefaults cfg (configSection prog) (baseActions spec),
      b.dest ≠ k := by
    intro b hb
    obtain ⟨c, hc, hcb⟩ := List.mem_map.mp hb
    rw [← hcb, applyConfigOne_dest]
    rcases List.mem_append.mp hc with hcl | hcr
    · have : c = helpAction := by
        cases hah : spec.noAddHelp <;> rw [hah] at hcl <;> simpa using hcl
      rw [this]
      exact fun e => hh e.symm
    · exact hf c hcr
  unfold buildSchema at ha
  simp only at ha
  split at ha
  · rcases List.mem_append.mp ha with h1 | h2
    · exact hbase a h1
    · have : a = remainderAction := by simpa using h2
      rw [this]
      exact fun e => hr e.symm
  · exact hbase a ha

/-- In a schema assembled with a device action, the device action is the only
action whose `dest` is `"device"` (given that no declared flag uses that
`dest`). -/
theorem buildSchema_device_unique {cfg : Config} {spec : CmdSpec} {hasSubs : Bool}
    {prog : String} {d : String}
    (hflags : ∀ a ∈ spec.flags, a.dest ≠ "device") :
    ∀ b ∈ buildSchema cfg spec hasSubs prog (some d),
      b.dest = "device" → b = deviceAction d := by
  intro b hb hbd
  rw [buildSchema_some] at hb
  rcases List.mem_append.mp hb with h1 | h2
  · exact absurd hbd (buildSchema_none_dest_ne hflags (by decide) (by decide) b h1)
  · simpa using h2

theorem deviceAction_mem_buildSchema (cfg : Config) (spec : CmdSpec) (hasSubs : Bool)
    (prog : String) (d : String) :
    deviceAction d ∈ buildSchema cfg spec hasSubs prog (some d) := by
  rw [buildSchema_some]
  simp

theorem validateDevice_ok_get {w : World} {ns ns2 : OptionNamespace} {s : String}
    (hget : ns.get "device" = some (.str s))
    (h : validateDevice w ns = .ok ns2) :
    ns2.get "device" = some (.str (w.realpath s)) := by
  unfold validateDevice at h
  rw [hget] at h
  by_cases he : w.pathExists (w.realpath s) = true
  · simp only [he, if_true] at h
    cases h
    exact OptionNamespace.get_set_self ns "device" _
  · simp only [he, if_false] at h
    cases h

/-- Core device-default resolution: with `device_option` set, at least one
drive enumerated, no explicit `-d`/`--device` on argv and no declared flag
using the `device` destination, a successful `constructBase` resolves the
device value to the real path of the first enumerated drive — for every
configuration-store content. -/
theorem constructBase_device_first_drive {w : World} {spec : CmdSpec}
    {hasSubs : Bool} {prog : String} {argv : List String} {ns : OptionNamespace}
    {lo : LevelOutcome} {d : String} {ds : List String}
    (hdev : spec.deviceOption = true)
    (hdr : w.drives = d :: ds)
    (hns : ns.get "device" = none)
    (hflags : ∀ a ∈ spec.flags, a.dest ≠ "device")
    (hd1 : "-d" ∉ argv) (hd2 : "--device" ∉ argv)
    (h : constructBase w spec hasSubs prog argv ns = .ok lo) :
    lo.ns.get "device" = some (.str (w.realpath d)) := by
  unfold constructBase at h
  rw [hdev] at h
  simp only [if_true] at h
  rw [hdr] at h
  simp only at h
  unfold parseAndValidate at h
  rcases hp : parseArgs (buildSchema w.config spec hasSubs prog (some d))
      hasSubs argv ns with e | ⟨ns1, rem⟩
  · rw [hp] at h
    cases h
  · rw [hp] at h
    simp only [if_true] at h
    rcases hv : validateDevice w ns1 with e | ns2
    · rw [hv] at h
      cases h
    · rw [hv] at h
      cases h
      have hns1 : ns1.get "device" = some (.str d) := by
        unfold parseArgs at hp
        have hseed : (seedDefaults (buildSchema w.config spec hasSubs prog (some d))
            ns).get "device" = some (.str d) :=
          seedDefaults_get_unique (deviceAction_mem_buildSchema _ _ _ _ _) rfl rfl
            (buildSchema_device_unique hflags) hns
        rw [scanArgs_preserve ?_ (by decide) hp]
        · exact hseed
        · intro t ht a hfa
          by_cases hdv : a.dest = "device"
          · have hda : a = deviceAction d :=
              buildSchema_device_unique hflags a (findAction_mem hfa) hdv
            have hts : t ∈ a.optionStrings := findAction_optionStrings hfa
            rw [hda] at hts
            simp only [deviceAction, List.mem_cons, List.not_mem_nil, or_false] at hts
            rcases hts with e | e
            · rw [e] at ht
              exact absurd ht hd1
            · rw [e] at ht
              exact absurd ht hd2
          · exact Or.inr hdv
      exact validateDevice_ok_get hns1 hv

theorem parseAndValidate_rem_length {w : World} {schema : List Action}
    {dev hasSubs : Bool} {argv : List String} {ns : OptionNamespace} {lo : LevelOutcome}
    (h : parseAndValidate w schema dev hasSubs argv ns = .ok lo) :
    lo.remainder.length ≤ argv.length := by
  unfold parseAndValidate at h
  rcases hp : parseArgs schema hasSubs argv ns with e | ⟨ns1, rem⟩
  · rw [hp] at h
    cases h
  · rw [hp] at h
    unfold parseArgs at hp
    have hlen := scanArgs_rem_length hp
    cases dev with
    | false =>
      simp only [Bool.false_eq_true, if_false] at h
      cases h
      exact hlen
    | true =>
      simp only [if_true] at h
      rcases hv : validateDevice w ns1 with e | ns2
      · rw [hv] at h
        cases h
      · rw [hv] at h
        cases h
        exact hlen

theorem constructBase_rem_length {w : World} {spec : CmdSpec} {hasSubs : Bool}
    {prog : String} {argv : List String} {ns : OptionNamespace} {lo : LevelOutcome}
    (h : constructBase w spec hasSubs prog argv ns = .ok lo) :
    lo.remainder.length ≤ argv.length := by
  unfold constructBase at h
  split at h
  · rcases hdr : w.drives with _ | ⟨d, ds⟩
    · rw [hdr] at h
      cases h
    · rw [hdr] at h
      simp only at h
      exact parseAndValidate_rem_length h
  · exact parseAndValidate_rem_length h

/-- Evaluation of one parse phase on an empty argv for a leaf node without
device requirement: the outcome is exactly the config-and-built-in defaults
seeded into the incoming namespace. -/
theorem constructBase_empty_argv (w : World) (spec : CmdSpec) (prog : String)
    (ns : OptionNamespace) (hdev : spec.deviceOption = false) :
    constructBase w spec false prog [] ns =
      .ok ⟨seedDefaults (buildSchema w.config spec false prog none) ns, [],
        buildSchema w.config spec false prog none⟩ := by
  unfold constructBase
  rw [hdev]
  simp only [Bool.false_eq_true, if_false]
  rfl

/-- Seeding an empty namespace from a leaf schema: a declared flag whose
`dest` is unique ends up holding exactly the default produced by the
config-resolution pass for it. -/
theorem seeded_unique_dest (cfg : Config) (spec : CmdSpec) (prog : String)
    (a : Action) (ha : a ∈ spec.flags)
    (huniq : ∀ c ∈ baseActions spec, c.dest = a.dest → c = a) :
    (seedDefaults (buildSchema cfg spec false prog none) []).get a.dest =
      (applyConfigOne cfg (configSection prog) a).default := by
  have hmem : applyConfigOne cfg (configSection prog) a ∈
      buildSchema cfg spec false prog none := by
    show _ ∈ applyConfigDefaults cfg (configSection prog) (baseActions spec)
    exact List.mem_map_of_mem _ (List.mem_append_right _ ha)
  have huniq2 : ∀ b ∈ buildSchema cfg spec false prog none,
      b.dest = a.dest → b = applyConfigOne cfg (configSection prog) a := by
    intro b hb hbd
    obtain ⟨c, hc, hcb⟩ := List.mem_map.mp hb
    have : c.dest = a.dest := by
      rw [← hbd, ← hcb, applyConfigOne_dest]
    rw [← hcb, huniq c hc this]
  rcases hdf : (applyConfigOne cfg (configSection prog) a).default with _ | v
  · exact seedDefaults_get_none
      (fun b hb hbd => by rw [huniq2 b hb hbd]; exact hdf) rfl
  · exact seedDefaults_get_unique hmem (applyConfigOne_dest cfg (configSection prog) a)
      hdf huniq2 rfl

theorem remainderAction_mem_buildSchema (cfg : Config) (spec : CmdSpec)
    (prog : String) (fd : Option String) :
    remainderAction ∈ buildSchema cfg spec true prog fd := by
  unfold buildSchema
  rcases fd with _ | d <;> simp

/-! Claim theorems and their witnesses. -/

/-- C5: for a device-requiring command node, if the device-enumeration
collaborator returns an empty sequence, construction fails immediately with
the fatal device-absence error (`IOError('No CD-DA drives found!')`): the
same error for every argv, so it occurs before argv flag parsing is ever
invoked, and a single call either fails or succeeds — nothing is retried. -/
theorem no_drives_fails_before_parsing (w : World) (c : Cmd) (argv : List String)
    (prog : String) (ns : OptionNamespace)
    (hdev : c.spec.deviceOption = true) (hdr : w.drives = []) :
    construct w c argv prog ns = .error .noDrives := by
  cases c with
  | leaf s =>
    simp only [Cmd.spec] at hdev
    have hbase : constructBase w s false prog argv ns = .error .noDrives := by
      unfold constructBase
      rw [hdev]
      simp only [if_true]
      rw [hdr]
    rw [construct_leaf_eq]
    simp only [hbase]
  | node s subs =>
    simp only [Cmd.spec] at hdev
    have hbase : constructBase w s true prog argv ns = .error .noDrives := by
      unfold constructBase
      rw [hdev]
      simp only [if_true]
      rw [hdr]
    simp only [construct, hbase]

def c5World : World := ⟨⟨fun _ _ => none, fun _ _ => none⟩, [], id, fun _ => true⟩

theorem no_drives_fails_before_parsing_witness :
    construct c5World (.leaf ⟨[], true, false⟩) ["--nonsense", "junk"]
      "whipper cd rip" [] = .error .noDrives :=
  no_drives_fails_before_parsing c5World (.leaf ⟨[], true, false⟩)
    ["--nonsense", "junk"] "whipper cd rip" [] rfl rfl

/-- C3: for a command node that declares child commands, after a successful
parse an empty catch-all remainder prints help and terminates with exit
status 0 (`SystemExit()`), while a non-empty remainder whose first token is
not a key of the child-command table terminates with exit status 1
(`SystemExit(1)`) naming the token — without constructing any child node
(the outcome is fixed before any deeper construction runs).  The two exit
statuses are distinct. -/
theorem dispatch_empty_vs_unknown (w : World) (spec : CmdSpec)
    (subs : List (String × Cmd)) (argv : List String) (prog : String)
    (ns : OptionNamespace) (lo : LevelOutcome)
    (hok : constructBase w spec true prog argv ns = .ok lo) :
    (lo.remainder = [] →
      construct w (.node spec subs) argv prog ns = .error .helpExit ∧
      Failure.helpExit.exitCode = 0) ∧
    (∀ tok rest, lo.remainder = tok :: rest → lookupSub subs tok = none →
      construct w (.node spec subs) argv prog ns =
        .error (.unknownSubcommand tok) ∧
      (Failure.unknownSubcommand tok).exitCode = 1) := by
  refine ⟨fun hrem => ⟨construct_node_help hok hrem, rfl⟩,
    fun tok rest hrem hlk => ⟨construct_node_unknown hok hrem hlk, rfl⟩⟩

def c3World : World := ⟨⟨fun _ _ => none, fun _ _ => none⟩, [], id, fun _ => true⟩
def c3Subs : List (String × Cmd) := [("cd", .leaf ⟨[], false, false⟩)]
def c3Lo : LevelOutcome :=
  ⟨[("remainder", .strList ["bad"])], ["bad"], [remainderAction]⟩

theorem dispatch_empty_vs_unknown_witness :
    construct c3World (.node ⟨[], false, true⟩ c3Subs) ["bad"] "whipper" [] =
      .error (.unknownSubcommand "bad") ∧
    (Failure.unknownSubcommand "bad").exitCode = 1 :=
  (dispatch_empty_vs_unknown c3World ⟨[], false, true⟩ c3Subs ["bad"] "whipper"
    [] c3Lo rfl).2 "bad" [] rfl rfl

/-- C9: recursive dispatch terminates because tokens strictly shrink: the
remainder captured by a node's parse is never longer than the node's argv
(first conjunct), and since each delegation hands the child only the tail of
the remainder, a fully constructed chain has at most `argv.length + 1`
levels (second conjunct) — in particular every construction completes and
returns a value. -/
theorem delegation_consumes_and_terminates :
    (∀ (w : World) (spec : CmdSpec) (hasSubs : Bool) (prog : String)
        (argv : List String) (ns : OptionNamespace) (lo : LevelOutcome),
      constructBase w spec hasSubs prog argv ns = .ok lo →
      lo.remainder.length ≤ argv.length) ∧
    (∀ (w : World) (c : Cmd) (argv : List String) (prog : String)
        (ns : OptionNamespace) (r : ConstructResult),
      construct w c argv prog ns = .ok r →
      r.levels.length ≤ argv.length + 1) := by
  constructor
  · exact fun w spec hasSubs prog argv ns lo h => constructBase_rem_length h
  · intro w c argv prog ns r h
    induction c, argv, prog, ns using construct.induct w
      (motive_2 := fun subs tok rest childProg ns =>
        ∀ r, dispatch w subs tok rest childProg ns = some (.ok r) →
          r.levels.length ≤ rest.length + 1) generalizing r with
    | case1 spec argv prog ns e hcb =>
      rw [construct_leaf_eq] at h
      simp only [hcb] at h
      cases h
    | case2 spec argv prog ns lo hcb =>
      rw [construct_leaf_eq] at h
      simp only [hcb, Except.ok.injEq] at h
      rw [← h]
      simp
    | case3 spec subs argv prog ns e hcb =>
      simp only [construct, hcb] at h
      cases h
    | case4 spec subs argv prog ns lo hcb hrem =>
      rw [construct_node_help hcb hrem] at h
      cases h
    | case5 spec subs argv prog ns lo hcb tok rest hrem hdisp ih =>
      simp only [construct, hcb, hrem, hdisp] at h
      cases h
    | case6 spec subs argv prog ns lo hcb tok rest hrem e hdisp ih =>
      simp only [construct, hcb, hrem, hdisp] at h
      cases h
    | case7 spec subs argv prog ns lo hcb tok rest hrem r0 hdisp ih =>
      simp only [construct, hcb, hrem, hdisp, Except.ok.injEq] at h
      have h1 := ih r0 hdisp
      have h2 := constructBase_rem_length hcb
      rw [hrem] at h2
      rw [← h]
      simp only [ConstructResult.levels, List.length_cons] at h1 ⊢
      simp only [List.length_cons] at h2
      omega
    | case8 tok rest childProg ns =>
      rename_i r0 hd0
      simp [dispatch] at hd0
    | case9 c restSubs tok rest childProg ns ih =>
      rename_i r0 hd0
      simp only [dispatch, eq_self_iff_true, if_true, Option.some.injEq] at hd0
      exact ih r0 hd0
    | case10 k c restSubs tok rest childProg ns hne ih =>
      rename_i r0 hd0
      simp only [dispatch, if_neg hne] at hd0
      exact ih r0 hd0

def c9R : ConstructResult :=
  ⟨[("remainder", .strList ["cd"])],
    [("whipper", [("remainder", .strList ["cd"])]),
     ("whipper cd", [("remainder", .strList ["cd"])])]⟩

theorem delegation_consumes_and_terminates_witness :
    c9R.levels.length ≤ (["cd"] : List String).length + 1 :=
  delegation_consumes_and_terminates.2 c3World (.node ⟨[], false, true⟩ c3Subs)
    ["cd"] "whipper" [] c9R rfl

/-- C7: for a device-requiring command node, after a successful parse the
device value is replaced by its canonical real path (`os.path.realpath`,
following symbolic links); if that resolved path does not exist the node
fails at once with the fatal `IOError('CD-DA device … not found!')` — the
single construction call either fails with that error or succeeds with the
resolved path stored, never with a silently substituted default. -/
theorem device_realpath_and_existence (w : World) (spec : CmdSpec)
    (prog : String) (argv : List String) (ns ns1 : OptionNamespace)
    (rem : List String) (d : String) (ds : List String) (s : String)
    (hdev : spec.deviceOption = true)
    (hdr : w.drives = d :: ds)
    (hp : parseArgs (buildSchema w.config spec false prog (some d)) false argv ns
      = .ok (ns1, rem))
    (hs : ns1.get "device" = some (.str s)) :
    (w.pathExists (w.realpath s) = false →
      constructBase w spec false prog argv ns =
        .error (.deviceNotFound (w.realpath s))) ∧
    (w.pathExists (w.realpath s) = true →
      ∃ lo, constructBase w spec false prog argv ns = .ok lo ∧
        lo.ns.get "device" = some (.str (w.realpath s))) := by
  have hcb : constructBase w spec false prog argv ns =
      match validateDevice w ns1 with
      | .error e => .error e
      | .ok ns2 => .ok ⟨ns2, rem, buildSchema w.config spec false prog (some d)⟩ := by
    unfold constructBase
    rw [hdev]
    simp only [if_true]
    rw [hdr]
    simp only
    unfold parseAndValidate
    rw [hp]
    rfl
  constructor
  · intro he
    rw [hcb]
    unfold validateDevice
    rw [hs]
    simp only [he, Bool.false_eq_true, if_false]
  · intro he
    rw [hcb]
    unfold validateDevice
    rw [hs]
    simp only [he, if_true]
    exact ⟨_, rfl, OptionNamespace.get_set_self _ _ _⟩

def c7World : World :=
  ⟨⟨fun _ _ => none, fun _ _ => none⟩, ["/dev/cdrom"],
    (fun s => if s = "/dev/cdrom" then "/dev/sr0" else s), fun _ => false⟩

theorem device_realpath_and_existence_witness :
    constructBase c7World ⟨[], true, false⟩ false "whipper cd rip" [] [] =
      .error (.deviceNotFound "/dev/sr0") :=
  (device_realpath_and_existence c7World ⟨[], true, false⟩ "whipper cd rip" []
    [] [("device", .str "/dev/cdrom")] [] "/dev/cdrom" [] "/dev/cdrom"
    rfl rfl rfl rfl).1 rfl

/-- C1: for every flag declared by a command node, giving the flag
explicitly on the argv passed to the node's construction makes the parsed
value the argv-supplied one — for an arbitrary configuration store (the
world, and with it every configuration value under the node's section, is
universally quantified), so the argv value wins over any config-supplied
default. -/
theorem argv_overrides_config (w : World) (spec : CmdSpec) (prog : String)
    (ns : OptionNamespace) (a : Action) (o v : String)
    (hdev : spec.deviceOption = false)
    (hfind : findAction (baseActions spec) o = some a)
    (hkind : a.kind = .store) :
    ∃ lo, constructBase w spec false prog [o, v] ns = .ok lo ∧
      lo.ns.get a.dest = some (.str v) := by
  have hfind2 : findAction (buildSchema w.config spec false prog none) o =
      some (applyConfigOne w.config (configSection prog) a) := by
    show findAction (applyConfigDefaults w.config (configSection prog)
      (baseActions spec)) o = _
    rw [findAction_applyConfigDefaults, hfind]
    rfl
  have hscan : scanArgs (buildSchema w.config spec false prog none) false [o, v]
      (seedDefaults (buildSchema w.config spec false prog none) ns) =
      .ok ((seedDefaults (buildSchema w.config spec false prog none) ns).set
        a.dest (.str v), []) := by
    simp only [scanArgs, hfind2, applyConfigOne_kind, hkind, applyConfigOne_dest,
      Bool.false_eq_true, if_false]
  have hcb : constructBase w spec false prog [o, v] ns =
      .ok ⟨(seedDefaults (buildSchema w.config spec false prog none) ns).set
        a.dest (.str v), [], buildSchema w.config spec false prog none⟩ := by
    unfold constructBase
    rw [hdev]
    simp only [Bool.false_eq_true, if_false]
    unfold parseAndValidate parseArgs
    rw [hscan]
    rfl
  exact ⟨_, hcb, OptionNamespace.get_set_self _ _ _⟩

def c1World : World :=
  ⟨⟨fun sec key => if sec = "whipper.cd" && key = "output" then some "/cfg/out"
      else none,
    fun _ _ => none⟩, [], id, fun _ => true⟩
def c1Flag : Action := ⟨["-o", "--output"], "output", some .null, .store⟩

theorem argv_overrides_config_witness :
    ∃ lo, constructBase c1World ⟨[c1Flag], false, false⟩ false "whipper cd"
      ["-o", "argv.out"] [] = .ok lo ∧
      lo.ns.get "output" = some (.str "argv.out") :=
  argv_overrides_config c1World ⟨[c1Flag], false, false⟩ "whipper cd" []
    c1Flag "-o" "argv.out" rfl rfl rfl

/-- C2: for a command node constructed with command path `prog`, the
configuration section queried for flag defaults is `configSection prog`,
i.e. `prog` with each space replaced by a dot (the hypotheses spell the
section out character by character); for a declared `store` flag, a
non-null value returned by the store under that section and the flag's
`dest` becomes the flag's default in the assembled schema — before argv is
parsed — and with argv leaving the flag unset it is the resolved value,
while an absent config value leaves the flag's built-in default unchanged. -/
theorem config_section_and_default_resolution (w : World) (spec : CmdSpec)
    (prog : String) (a : Action)
    (hdev : spec.deviceOption = false)
    (ha : a ∈ spec.flags)
    (hkind : a.kind = .store)
    (huniq : ∀ c ∈ baseActions spec, c.dest = a.dest → c = a) :
    (∀ s, w.config.get (⟨prog.data.map fun c => if c = ' ' then '.' else c⟩ :
        String) a.dest = some s →
      applyConfigOne w.config (configSection prog) a =
        { a with default := some (.str s) } ∧
      ∃ lo, constructBase w spec false prog [] [] = .ok lo ∧
        lo.ns.get a.dest = some (.str s)) ∧
    (w.config.get (⟨prog.data.map fun c => if c = ' ' then '.' else c⟩ :
        String) a.dest = none →
      applyConfigOne w.config (configSection prog) a = a ∧
      ∃ lo, constructBase w spec false prog [] [] = .ok lo ∧
        lo.ns.get a.dest = a.default) := by
  have hsec : (⟨prog.data.map fun c => if c = ' ' then '.' else c⟩ : String) =
      configSection prog := rfl
  rw [hsec]
  have hcb := constructBase_empty_argv w spec prog [] hdev
  have hseed := seeded_unique_dest w.config spec prog a ha huniq
  constructor
  · intro s hs
    have hone : applyConfigOne w.config (configSection prog) a =
        { a with default := some (.str s) } := by
      simp only [applyConfigOne, hkind, hs]
    refine ⟨hone, _, hcb, ?_⟩
    rw [hseed, hone]
  · intro hs
    have hone : applyConfigOne w.config (configSection prog) a = a := by
      simp only [applyConfigOne, hkind, hs]
    refine ⟨hone, _, hcb, ?_⟩
    rw [hseed, hone]

def c2World : World :=
  ⟨⟨fun sec key => if sec = "whipper.cd.rip" && key = "unknown-start" then
      some "5" else none,
    fun _ _ => none⟩, [], id, fun _ => true⟩
def c2Flag : Action := ⟨["-U", "--unknown-start"], "unknown-start", some .null, .store⟩
def c2Flag2 : Action := ⟨["-o", "--output"], "output", some (.str "builtin"), .store⟩

theorem config_section_and_default_resolution_witness :
    (applyConfigOne c2World.config (configSection "whipper cd rip") c2Flag =
      { c2Flag with default := some (.str "5") } ∧
     ∃ lo, constructBase c2World ⟨[c2Flag, c2Flag2], false, false⟩ false
       "whipper cd rip" [] [] = .ok lo ∧
       lo.ns.get "unknown-start" = some (.str "5")) ∧
    (applyConfigOne c2World.config (configSection "whipper cd rip") c2Flag2 =
      c2Flag2 ∧
     ∃ lo, constructBase c2World ⟨[c2Flag, c2Flag2], false, false⟩ false
       "whipper cd rip" [] [] = .ok lo ∧
       lo.ns.get "output" = c2Flag2.default) :=
  ⟨(config_section_and_default_resolution c2World ⟨[c2Flag, c2Flag2], false, false⟩
      "whipper cd rip" c2Flag rfl (by decide) rfl (by decide)).1 "5" rfl,
   (config_section_and_default_resolution c2World ⟨[c2Flag, c2Flag2], false, false⟩
      "whipper cd rip" c2Flag2 rfl (by decide) rfl (by decide)).2 rfl⟩

/-- C6: default resolution dispatches on the flag's action class: boolean
(`store_true`/`store_false`) flags are resolved through the boolean-typed
lookup `getboolean`, while the string lookup `get` — universally quantified
here, so in particular one returning the non-empty string `"false"` — has no
influence on them: when `getboolean` answers `some b` the resolved pre-parse
value is exactly `Value.bool b`, never a truthiness coercion of a string.
(`config_section_and_default_resolution` shows the matching fact that
`store` flags resolve through the string lookup.) -/
theorem boolean_flags_use_boolean_lookup
    (gget : String → String → Option String)
    (gbool : String → String → Option Bool)
    (drives : List String) (rp : String → String) (pe : String → Bool)
    (spec : CmdSpec) (prog : String) (a : Action) (b : Bool)
    (hdev : spec.deviceOption = false)
    (ha : a ∈ spec.flags)
    (hkind : a.kind = .storeTrue ∨ a.kind = .storeFalse)
    (huniq : ∀ c ∈ baseActions spec, c.dest = a.dest → c = a)
    (hb : gbool (configSection prog) a.dest = some b) :
    ∃ lo, constructBase ⟨⟨gget, gbool⟩, drives, rp, pe⟩ spec false prog [] [] =
      .ok lo ∧ lo.ns.get a.dest = some (.bool b) := by
  have hcb := constructBase_empty_argv ⟨⟨gget, gbool⟩, drives, rp, pe⟩ spec prog [] hdev
  have hseed := seeded_unique_dest ⟨gget, gbool⟩ spec prog a ha huniq
  refine ⟨_, hcb, ?_⟩
  rw [hseed]
  rcases hkind with hk | hk <;> simp only [applyConfigOne, hk, hb]

def c6Flag : Action := ⟨["-U", "--unknown-start"], "unknown-start", some (.bool true), .storeTrue⟩

theorem boolean_flags_use_boolean_lookup_witness :
    ∃ lo, constructBase ⟨⟨fun _ _ => some "false", fun _ _ => some false⟩,
        [], id, fun _ => true⟩ ⟨[c6Flag], false, false⟩ false "whipper cd rip"
        [] [] = .ok lo ∧
      lo.ns.get "unknown-start" = some (.bool false) :=
  boolean_flags_use_boolean_lookup (fun _ _ => some "false")
    (fun _ _ => some false) [] id (fun _ => true) ⟨[c6Flag], false, false⟩
    "whipper cd rip" c6Flag false rfl (by decide) (Or.inl rfl) (by decide) rfl

/-- C8: for a device-requiring command node whose device enumeration returns
a non-empty sequence, when argv contains no explicit `-d`/`--device` flag a
successful construction resolves the device value to the first enumerated
device path (modulo the subsequent canonical-path resolution through
`os.path.realpath`). -/
theorem device_default_is_first_drive (w : World) (spec : CmdSpec)
    (hasSubs : Bool) (prog : String) (argv : List String) (ns : OptionNamespace)
    (lo : LevelOutcome) (d : String) (ds : List String)
    (hdev : spec.deviceOption = true)
    (hdr : w.drives = d :: ds)
    (hns : ns.get "device" = none)
    (hflags : ∀ a ∈ spec.flags, a.dest ≠ "device")
    (hd1 : "-d" ∉ argv) (hd2 : "--device" ∉ argv)
    (h : constructBase w spec hasSubs prog argv ns = .ok lo) :
    lo.ns.get "device" = some (.str (w.realpath d)) :=
  constructBase_device_first_drive hdev hdr hns hflags hd1 hd2 h

def c8World : World :=
  ⟨⟨fun _ _ => none, fun _ _ => none⟩, ["/dev/cdrom", "/dev/sr9"],
    (fun s => if s = "/dev/cdrom" then "/dev/sr0" else s), fun s => s = "/dev/sr0"⟩
def c8Flag : Action := ⟨["-R", "--rate"], "rate", some .null, .store⟩

theorem device_default_is_first_drive_witness :
    (⟨[("rate", .str "8"), ("device", .str "/dev/sr0")], [],
      [helpAction, c8Flag, deviceAction "/dev/cdrom"]⟩ :
        LevelOutcome).ns.get "device" = some (.str "/dev/sr0") :=
  device_default_is_first_drive c8World ⟨[c8Flag], true, false⟩ false
    "whipper cd rip" ["-R", "8"] []
    ⟨[("rate", .str "8"), ("device", .str "/dev/sr0")], [],
      [helpAction, c8Flag, deviceAction "/dev/cdrom"]⟩
    "/dev/cdrom" ["/dev/sr9"] rfl rfl rfl (by decide) (by decide) (by decide) rfl

/-- C10: the configuration store is never consulted for the device flag or
the catch-all remainder positional: both actions sit in the assembled schema
as their untouched literals (in particular the device action's pre-parse
default is the first enumerated device path), because they are appended only
after the config-defaults pass has run over the declared flags; and even
when the store holds an entry named `device` under the node's section (the
deliberately unused hypothesis `hcfg`), a successful construction still
resolves the device value from the first enumerated drive, never from that
entry. -/
theorem device_and_remainder_ignore_config (w : World) (spec : CmdSpec)
    (prog : String) (argv : List String) (ns : OptionNamespace)
    (lo : LevelOutcome) (d : String) (ds : List String) (cfgDevice : String)
    (hdev : spec.deviceOption = true)
    (hdr : w.drives = d :: ds)
    (hns : ns.get "device" = none)
    (hflags : ∀ a ∈ spec.flags, a.dest ≠ "device")
    (hd1 : "-d" ∉ argv) (hd2 : "--device" ∉ argv)
    (hcfg : w.config.get (configSection prog) "device" = some cfgDevice)
    (h : constructBase w spec true prog argv ns = .ok lo) :
    deviceAction d ∈ buildSchema w.config spec true prog (some d) ∧
    remainderAction ∈ buildSchema w.config spec true prog (some d) ∧
    lo.ns.get "device" = some (.str (w.realpath d)) :=
  ⟨deviceAction_mem_buildSchema _ _ _ _ _,
   remainderAction_mem_buildSchema _ _ _ _,
   constructBase_device_first_drive hdev hdr hns hflags hd1 hd2 h⟩

def c10World : World :=
  ⟨⟨fun _ _ => some "/evil/path", fun _ _ => some true⟩, ["/dev/cdrom"],
    (fun s => if s = "/dev/cdrom" then "/dev/sr0" else s), fun s => s = "/dev/sr0"⟩

theorem device_and_remainder_ignore_config_witness :
    deviceAction "/dev/cdrom" ∈
      buildSchema c10World.config ⟨[], true, true⟩ true "whipper cd" (some "/dev/cdrom") ∧
    remainderAction ∈
      buildSchema c10World.config ⟨[], true, true⟩ true "whipper cd" (some "/dev/cdrom") ∧
    (⟨[("remainder", .strList []), ("device", .str "/dev/sr0")], [],
      [remainderAction, deviceAction "/dev/cdrom"]⟩ :
        LevelOutcome).ns.get "device" = some (.str "/dev/sr0") :=
  device_and_remainder_ignore_config c10World ⟨[], true, true⟩ "whipper cd" [] []
    ⟨[("remainder", .strList []), ("device", .str "/dev/sr0")], [],
      [remainderAction, deviceAction "/dev/cdrom"]⟩
    "/dev/cdrom" [] "/evil/path" rfl rfl rfl (by decide) (by decide) (by decide)
    rfl rfl

/-- C4: one option-namespace value is threaded along the whole active chain:
when a parent node delegates, the child's construction receives the parent's
own post-parse namespace (the same `lo.ns` recorded as the parent's level),
so a flag the parent's parse set to `v` under a key the child does not
redeclare is still mapped to the same `v` in the child's resolved
namespace. -/
theorem shared_namespace_parent_flag_visible (w : World) (spec : CmdSpec)
    (subs : List (String × Cmd)) (argv : List String) (prog : String)
    (ns0 : OptionNamespace) (lo : LevelOutcome) (tok : String)
    (rest : List String) (cs : CmdSpec) (k : String) (v : Value)
    (r : ConstructResult)
    (hbase : constructBase w spec true prog argv ns0 = .ok lo)
    (hrem : lo.remainder = tok :: rest)
    (hchild : lookupSub subs tok = some (.leaf cs))
    (hk : lo.ns.get k = some v)
    (hkh : k ≠ "help") (hkr : k ≠ "remainder") (hkd : k ≠ "device")
    (hflags : ∀ a ∈ cs.flags, a.dest ≠ k)
    (hok : construct w (.node spec subs) argv prog ns0 = .ok r) :
    ∃ ns2, r.levels = [(prog, lo.ns), (prog ++ " " ++ tok, ns2)] ∧
      ns2.get k = some v := by
  rw [construct_node_delegate hbase hrem hchild] at hok
  rcases hc : construct w (.leaf cs) rest (prog ++ " " ++ tok) lo.ns with e | r'
  · rw [hc] at hok
    cases hok
  · simp only [hc, Except.ok.injEq] at hok
    rw [construct_leaf_eq] at hc
    rcases hcb : constructBase w cs false (prog ++ " " ++ tok) rest lo.ns
        with e2 | lo2
    · rw [hcb] at hc
      cases hc
    · simp only [hcb, Except.ok.injEq] at hc
      have hpres : lo2.ns.get k = lo.ns.get k :=
        constructBase_preserve hflags hkh hkr hkd hcb
      refine ⟨lo2.ns, ?_, by rw [hpres]; exact hk⟩
      rw [← hok, ← hc]

def c4World : World := ⟨⟨fun _ _ => none, fun _ _ => none⟩, [], id, fun _ => true⟩
def c4Eject : Action := ⟨["-e", "--eject"], "eject", some (.bool false), .storeTrue⟩
def c4Output : Action := ⟨["-o", "--output"], "output", some .null, .store⟩
def c4Subs : List (String × Cmd) := [("cd", .leaf ⟨[c4Output], false, false⟩)]
def c4Lo : LevelOutcome :=
  ⟨[("eject", .bool true), ("remainder", .strList ["cd"])], ["cd"],
    [c4Eject, remainderAction]⟩
def c4R : ConstructResult :=
  ⟨[("eject", .bool true), ("remainder", .strList ["cd"]), ("output", .null)],
    [("whipper", [("eject", .bool true), ("remainder", .strList ["cd"])]),
     ("whipper cd",
       [("eject", .bool true), ("remainder", .strList ["cd"]), ("output", .null)])]⟩

theorem shared_namespace_parent_flag_visible_witness :
    ∃ ns2, c4R.levels =
        [("whipper", c4Lo.ns), ("whipper" ++ " " ++ "cd", ns2)] ∧
      ns2.get "eject" = some (.bool true) :=
  shared_namespace_parent_flag_visible c4World ⟨[c4Eject], false, true⟩ c4Subs
    ["-e", "cd"] "whipper" [] c4Lo "cd" [] ⟨[c4Output], false, false⟩
    "eject" (.bool true) c4R rfl rfl rfl rfl (by decide) (by decide) (by decide)
    (by decide) rfl

end Whipper
